import Mathlib

/-!
Verification of the SaDi dependency-injection container.

Shallow embedding of the core container in `src/sadi.rs` and its error model
in `src/error.rs`, plus a spec-modelled version of the production crate's
resolution engine (whose error module is `sadi/src/error.rs`).

Modelling conventions:
* `Ty` stands for `std::any::TypeId`: a stable identity of a Rust type
  (distinct types never collide).
* A `Box<dyn Any>` is a `Value`: a runtime type tag together with an
  allocation identity (`inst`).  Two handles are reference-identical exactly
  when their `inst` fields coincide; `inst` also serves as the observable
  output of a factory with side effects (each construction draws a fresh id).
* A factory closure `Fn(&SaDi) -> T` is deep-embedded as `FProg`: it may
  resolve dependencies through the container it receives, branch on the
  outcome, and finally construct a value with a given runtime type.
* The container struct is split into its frozen part (`SaDi`: the two
  factory maps, which `try_get`/`try_get_singleton` borrow immutably) and the
  interior-mutable part (`RState`: the `singleton_cache` behind the
  `RefCell`, plus instrumentation: the allocation counter and the log of
  factory invocations).
* The Rust functions can recurse without bound (there is no cycle check in
  `src/sadi.rs`), so the interpreter is fuel-indexed; `none` models a
  computation that exceeds the fuel (in particular unbounded recursion).
-/

/-- TypeId of a Rust type: a stable, collision-free identity. -/
abbrev Ty := Nat

/-- Model of `std::any::type_name`: an injective printable name for a type. -/
def typeName (t : Ty) : String := "T" ++ toString t

/-- `ErrorKind` from `src/error.rs`. -/
inductive ErrorKind where
  | ServiceNotRegistered
  | TypeMismatch
  | CachedTypeMismatch
  | FactoryAlreadyRegistered
deriving DecidableEq, Repr

/-- `SaDiError` from `src/error.rs`: an error kind plus a human-readable message. -/
structure SaDiError where
  kind : ErrorKind
  message : String
deriving DecidableEq, Repr

/-- `SaDiError::service_not_registered`. -/
def SaDiError.service_not_registered (type_name service_type : String) : SaDiError :=
  ⟨.ServiceNotRegistered,
    "No " ++ service_type ++ " factory registered for type: " ++ type_name⟩

/-- `SaDiError::type_mismatch`. -/
def SaDiError.type_mismatch (type_name : String) : SaDiError :=
  ⟨.TypeMismatch, "Factory returned wrong type for: " ++ type_name⟩

/-- `SaDiError::cached_type_mismatch`. -/
def SaDiError.cached_type_mismatch (type_name : String) : SaDiError :=
  ⟨.CachedTypeMismatch, "Cached instance has wrong type for: " ++ type_name⟩

/-- `SaDiError::factory_already_registered`. -/
def SaDiError.factory_already_registered (type_name service_type : String) : SaDiError :=
  ⟨.FactoryAlreadyRegistered,
    service_type ++ " factory already registered for type: " ++ type_name⟩

/-- A type-erased value (`Box<dyn Any>` / `Rc<dyn Any>`): runtime type tag plus
allocation identity.  Reference identity of `Rc` handles is equality of `inst`. -/
structure Value where
  ty : Ty
  inst : Nat
deriving DecidableEq, Repr

/-- Deep embedding of a factory closure `Fn(&SaDi) -> T`.  A factory may call
`try_get` / `try_get_singleton` on the container it receives, branch on the
outcome, and finally construct a value whose runtime type is the `make` tag. -/
inductive FProg where
  | make (t : Ty)
  | getTrans (dep : Ty) (onOk onErr : FProg)
  | getSing (dep : Ty) (onOk onErr : FProg)
deriving DecidableEq, Repr

/-- Which of the two factory maps a registration or invocation belongs to. -/
inductive Scope where
  | transient
  | singleton
deriving DecidableEq, Repr

/-- The frozen part of the `SaDi` struct from `src/sadi.rs`: the transient
factory map and the singleton factory map (`HashMap<TypeId, Box<dyn Fn…>>`,
modelled as association lists with at most one entry per key). -/
structure SaDi where
  factories : List (Ty × FProg)
  singletons : List (Ty × FProg)
deriving DecidableEq, Repr

/-- `SaDi::new`. -/
def SaDi.new : SaDi := ⟨[], []⟩

/-- `SaDi::try_factory`: register a transient factory, rejecting a duplicate
registration in the transient map. -/
def SaDi.tryFactory (di : SaDi) (t : Ty) (f : FProg) : Except SaDiError SaDi :=
  if (di.factories.lookup t).isSome then
    .error (SaDiError.factory_already_registered (typeName t) "transient")
  else
    .ok { di with factories := (t, f) :: di.factories }

/-- `SaDi::try_factory_singleton`: register a singleton factory, rejecting a
duplicate registration in the singleton map. -/
def SaDi.tryFactorySingleton (di : SaDi) (t : Ty) (f : FProg) : Except SaDiError SaDi :=
  if (di.singletons.lookup t).isSome then
    .error (SaDiError.factory_already_registered (typeName t) "singleton")
  else
    .ok { di with singletons := (t, f) :: di.singletons }

/-- The interior-mutable state of the container during resolution: the
`singleton_cache` (behind the `RefCell`), the allocation counter that hands
out instance identities, and the log of factory invocations (which map's
closure was executed, for which type). -/
structure RState where
  cache : List (Ty × Value)
  alloc : Nat
  invocs : List (Scope × Ty)
deriving DecidableEq, Repr

/-- The state of a freshly created container: empty cache, nothing observed. -/
def RState.empty : RState := ⟨[], 0, []⟩

/-- Number of times the factory registered under `(sc, t)` has been executed. -/
def cnt (st : RState) (sc : Scope) (t : Ty) : Nat := st.invocs.count (sc, t)

/-- Interpreter of a factory closure body, parameterized by the resolution
methods of the `&SaDi` the closure captures.  `res .transient` is `try_get`,
`res .singleton` is `try_get_singleton`. -/
def runFWith (res : Scope → Ty → RState → Option (Except String Value × RState)) :
    FProg → RState → Option (Value × RState)
  | .make t, st => some (⟨t, st.alloc⟩, { st with alloc := st.alloc + 1 })
  | .getTrans dep onOk onErr, st =>
    match res .transient dep st with
    | none => none
    | some (.ok _, st') => runFWith res onOk st'
    | some (.error _, st') => runFWith res onErr st'
  | .getSing dep onOk onErr, st =>
    match res .singleton dep st with
    | none => none
    | some (.ok _, st') => runFWith res onOk st'
    | some (.error _, st') => runFWith res onErr st'

/-- `SaDi::try_get` and `SaDi::try_get_singleton` from `src/sadi.rs`, combined
into one fuel-indexed function (the `Scope` argument selects which of the two
Rust methods runs; each branch mirrors its method line by line).
`none` means the fuel was exhausted — the Rust code has no cycle check and can
recurse without bound. -/
def resolveF : Nat → SaDi → Scope → Ty → RState → Option (Except String Value × RState)
  | 0, _, _, _, _ => none
  | fuel + 1, di, .transient, t, st =>
    match di.factories.lookup t with
    | some f =>
      match runFWith (resolveF fuel di) f
          { st with invocs := (Scope.transient, t) :: st.invocs } with
      | none => none
      | some (v, st') =>
        if v.ty = t then some (.ok v, st')
        else some (.error ("Factory returned wrong type for: " ++ typeName t), st')
    | none =>
      some (.error ("No transient factory registered for type: " ++ typeName t), st)
  | fuel + 1, di, .singleton, t, st =>
    match st.cache.lookup t with
    | some v =>
      if v.ty = t then some (.ok v, st)
      else some (.error ("Cached instance has wrong type for: " ++ typeName t), st)
    | none =>
      match di.singletons.lookup t with
      | some f =>
        match runFWith (resolveF fuel di) f
            { st with invocs := (Scope.singleton, t) :: st.invocs } with
        | none => none
        | some (v, st') =>
          if v.ty = t then
            some (.ok v, { st' with cache := (t, v) :: st'.cache })
          else some (.error ("Factory returned wrong type for: " ++ typeName t), st')
      | none =>
        some (.error ("No singleton factory registered for type: " ++ typeName t), st)

/-- `SaDi::try_get`: resolve a transient instance. -/
def tryGetF (fuel : Nat) (di : SaDi) (t : Ty) (st : RState) :
    Option (Except String Value × RState) :=
  resolveF fuel di .transient t st

/-- `SaDi::try_get_singleton`: resolve a singleton instance. -/
def tryGetSingletonF (fuel : Nat) (di : SaDi) (t : Ty) (st : RState) :
    Option (Except String Value × RState) :=
  resolveF fuel di .singleton t st

/-- The Rust-level form of an error value returned by a public operation.
`src/sadi.rs` gives the registration methods the signature
`Result<Self, SaDiError>` but the resolution methods the signature
`Result<T, String>`; the constructor records which form the source returns. -/
inductive ErrVal where
  | typed (e : SaDiError)
  | raw (s : String)
deriving DecidableEq, Repr

/-- Whether an error value is a structured `SaDiError` (carrying an
`ErrorKind` variant of the taxonomy) rather than a bare message string. -/
def ErrVal.isTyped : ErrVal → Bool
  | .typed _ => true
  | .raw _ => false

/-- `try_factory` as seen by a caller, with its error in the uniform
error-form type: the source returns a structured `SaDiError`. -/
def tryFactoryPub (di : SaDi) (t : Ty) (f : FProg) : Except ErrVal SaDi :=
  (di.tryFactory t f).mapError ErrVal.typed

/-- `try_factory_singleton` as seen by a caller: structured `SaDiError`. -/
def tryFactorySingletonPub (di : SaDi) (t : Ty) (f : FProg) : Except ErrVal SaDi :=
  (di.tryFactorySingleton t f).mapError ErrVal.typed

/-- `try_get` as seen by a caller: the source returns a bare `String`. -/
def tryGetPub (fuel : Nat) (di : SaDi) (t : Ty) (st : RState) :
    Option (Except ErrVal Value × RState) :=
  (tryGetF fuel di t st).map (fun r => (r.1.mapError ErrVal.raw, r.2))

/-- `try_get_singleton` as seen by a caller: the source returns a bare `String`. -/
def tryGetSingletonPub (fuel : Nat) (di : SaDi) (t : Ty) (st : RState) :
    Option (Except ErrVal Value × RState) :=
  (tryGetSingletonF fuel di t st).map (fun r => (r.1.mapError ErrVal.raw, r.2))

namespace SadiCrate

/-- `ErrorKind` from `sadi/src/error.rs` (the production crate's error model). -/
inductive ErrorKind where
  | ServiceNotProvided
  | TypeMismatch
  | ProviderAlreadyRegistered
  | CircularDependency
  | FactoryExecutionFailed
  | InvalidScope
  | ModuleLoadFailed
deriving DecidableEq, Repr

/-- `Error` from `sadi/src/error.rs`. -/
structure Error where
  kind : ErrorKind
  message : String
deriving DecidableEq, Repr

/-- `Error::service_not_provided`. -/
def Error.service_not_provided (type_name : String) : Error :=
  ⟨.ServiceNotProvided, "No provider registered for type: " ++ type_name⟩

/-- `Error::circular_dependency`: joins the chain in discovery order. -/
def Error.circular_dependency (dependency_chain : List String) : Error :=
  ⟨.CircularDependency,
    "Circular dependency detected: " ++ String.intercalate " -> " dependency_chain⟩

/-- The spec's `Scope` enumeration `{Transient, Shared}`. -/
inductive PScope where
  | Transient
  | Shared
deriving DecidableEq, Repr

/-- A `ProviderEntry` of the production registry: the scope and the factory,
the latter abstracted to the ordered list of identities it resolves. -/
structure ProviderEntry where
  scope : PScope
  deps : List Ty
deriving DecidableEq, Repr

/-- The frozen provider registry: at most one entry per identity. -/
abbrev Registry := List (Ty × ProviderEntry)

/-- Sequentially resolve a factory's dependencies (threading the shared cache,
propagating the first nested error unchanged), with `res` the engine's
resolve at the current chain depth. -/
def resolveDepsWith (res : List Ty → Ty → List Ty → Option (Except Error (List Ty))) :
    List Ty → List Ty → List Ty → Option (Except Error (List Ty))
  | cache, [], _ => some (.ok cache)
  | cache, d :: ds, chain =>
    match res cache d chain with
    | none => none
    | some (.error e) => some (.error e)
    | some (.ok cache') => resolveDepsWith res cache' ds chain

/-- Modelled from the spec: the production container's resolution engine
(`Injector::resolve`) is not part of the shown source — only its error module
(`sadi/src/error.rs`) and its example callers are.  Following §4.2:
1. if `identity` is already on `chain`, fail with `CircularDependency`
   reporting the full chain (including the repeated identity) in discovery
   order; 2. look up the provider, failing with `ServiceNotProvided` if
   absent; 3. a Shared identity already in the cache is returned directly;
4. otherwise push `identity`, run the factory (resolving its dependencies in
   order with the extended chain), popping on return; 6. a successfully
   constructed Shared instance is stored in the cache.
The cache is abstracted to the set of identities whose Shared instance has
been constructed; the value returned on success is the updated cache.  Fuel
bounds recursion depth; `none` means it was exhausted. -/
def resolve : Nat → Registry → List Ty → Ty → List Ty → Option (Except Error (List Ty))
  | 0, _, _, _, _ => none
  | fuel + 1, reg, cache, identity, chain =>
    if identity ∈ chain then
      some (.error (Error.circular_dependency ((chain ++ [identity]).map typeName)))
    else
      match reg.lookup identity with
      | none => some (.error (Error.service_not_provided (typeName identity)))
      | some entry =>
        if entry.scope = .Shared ∧ identity ∈ cache then
          some (.ok cache)
        else
          match resolveDepsWith (resolve fuel reg) cache entry.deps (chain ++ [identity]) with
          | none => none
          | some (.error e) => some (.error e)
          | some (.ok cache') =>
            if entry.scope = .Shared then some (.ok (identity :: cache'))
            else some (.ok cache')

end SadiCrate

/-- C1 counterexample: the claim says a second registration for an
already-bound identity is rejected even when the scope differs, but the two
scopes use separate maps: registering identity 0 as transient and then as
singleton both succeed, producing a container with both bindings. -/
theorem c1_counterexample :
    SaDi.new.tryFactory 0 (.make 0) = .ok ⟨[(0, .make 0)], []⟩ ∧
    (SaDi.mk [(0, FProg.make 0)] []).tryFactorySingleton 0 (.make 0) =
      .ok ⟨[(0, .make 0)], [(0, .make 0)]⟩ := by
  exact ⟨rfl, rfl⟩

/-- C1 (amended): a second registration for an identity already bound in the
same scope always fails with a `FactoryAlreadyRegistered` error naming the
identity and that scope, and never overwrites the existing binding; a second
registration under the other scope, however, succeeds (the scopes are
separate maps) and leaves the first binding intact. -/
theorem c1_theorem (di : SaDi) (t : Ty) (f g : FProg) :
    (di.factories.lookup t = some g →
      di.tryFactory t f =
        .error (SaDiError.factory_already_registered (typeName t) "transient")) ∧
    (di.singletons.lookup t = some g →
      di.tryFactorySingleton t f =
        .error (SaDiError.factory_already_registered (typeName t) "singleton")) ∧
    (di.factories.lookup t = some g → di.singletons.lookup t = none →
      di.tryFactorySingleton t f =
        .ok { di with singletons := (t, f) :: di.singletons } ∧
      ({ di with singletons := (t, f) :: di.singletons} : SaDi).factories.lookup t
        = some g) := by
  refine ⟨fun h => ?_, fun h => ?_, fun h h' => ⟨?_, h⟩⟩ <;>
    simp [SaDi.tryFactory, SaDi.tryFactorySingleton, h, *]

/-- C1 witness: the amended behavior at concrete containers. -/
theorem c1_witness :
    ((SaDi.mk [(0, FProg.make 0)] []).tryFactory 0 (.make 1) =
      .error (SaDiError.factory_already_registered (typeName 0) "transient")) ∧
    ((SaDi.mk [] [(0, FProg.make 0)]).tryFactorySingleton 0 (.make 1) =
      .error (SaDiError.factory_already_registered (typeName 0) "singleton")) ∧
    ((SaDi.mk [(0, FProg.make 0)] []).tryFactorySingleton 0 (.make 1) =
      .ok ⟨[(0, .make 0)], [(0, .make 1)]⟩ ∧
     (SaDi.mk [(0, FProg.make 0)] [(0, FProg.make 1)]).factories.lookup 0 =
      some (.make 0)) :=
  ⟨(c1_theorem ⟨[(0, .make 0)], []⟩ 0 (.make 1) (.make 0)).1 rfl,
   (c1_theorem ⟨[], [(0, .make 0)]⟩ 0 (.make 1) (.make 0)).2.1 rfl,
   (c1_theorem ⟨[(0, .make 0)], []⟩ 0 (.make 1) (.make 0)).2.2 rfl rfl⟩

/-- C6: resolving an identity with no registered factory always fails, from
either entry point, with an error whose message names the requested identity
and is exactly the `ServiceNotRegistered` message of the error taxonomy. -/
theorem c6_theorem (fuel : Nat) (di : SaDi) (t : Ty) (st : RState) :
    (di.factories.lookup t = none →
      tryGetF (fuel + 1) di t st =
        some (.error ("No transient factory registered for type: " ++ typeName t), st) ∧
      "No transient factory registered for type: " ++ typeName t =
        (SaDiError.service_not_registered (typeName t) "transient").message) ∧
    (di.singletons.lookup t = none → st.cache.lookup t = none →
      tryGetSingletonF (fuel + 1) di t st =
        some (.error ("No singleton factory registered for type: " ++ typeName t), st) ∧
      "No singleton factory registered for type: " ++ typeName t =
        (SaDiError.service_not_registered (typeName t) "singleton").message) := by
  constructor
  · intro h
    exact ⟨by simp [tryGetF, resolveF, h], rfl⟩
  · intro h h'
    exact ⟨by simp [tryGetSingletonF, resolveF, h, h'], rfl⟩

/-- C6 witness: both entry points at a concrete empty container. -/
theorem c6_witness :
    (tryGetF 1 SaDi.new 0 RState.empty =
      some (.error ("No transient factory registered for type: " ++ typeName 0),
        RState.empty) ∧
     "No transient factory registered for type: " ++ typeName 0 =
      (SaDiError.service_not_registered (typeName 0) "transient").message) ∧
    (tryGetSingletonF 1 SaDi.new 0 RState.empty =
      some (.error ("No singleton factory registered for type: " ++ typeName 0),
        RState.empty) ∧
     "No singleton factory registered for type: " ++ typeName 0 =
      (SaDiError.service_not_registered (typeName 0) "singleton").message) :=
  ⟨(c6_theorem 0 SaDi.new 0 RState.empty).1 rfl,
   (c6_theorem 0 SaDi.new 0 RState.empty).2 rfl rfl⟩

/-- C10: the transient and singleton registries are disjoint namespaces over
the same type identities: a registration only consults its own map (so
cross-scope double registration succeeds), and each resolution entry point
only consults its own map (so a singleton-only identity fails transient
resolution with the `no transient factory` error, and symmetrically). -/
theorem c10_theorem (fuel : Nat) (di : SaDi) (t : Ty) (p f g : FProg) (st : RState) :
    (di.factories.lookup t = none →
      di.tryFactory t f = .ok { di with factories := (t, f) :: di.factories }) ∧
    (di.singletons.lookup t = none →
      di.tryFactorySingleton t g =
        .ok { di with singletons := (t, g) :: di.singletons }) ∧
    (di.singletons.lookup t = some p → di.factories.lookup t = none →
      tryGetF (fuel + 1) di t st =
        some (.error ("No transient factory registered for type: " ++ typeName t), st)) ∧
    (di.factories.lookup t = some p → di.singletons.lookup t = none →
      st.cache.lookup t = none →
      tryGetSingletonF (fuel + 1) di t st =
        some (.error ("No singleton factory registered for type: " ++ typeName t), st)) := by
  refine ⟨fun h => ?_, fun h => ?_, fun h h' => ?_, fun h h' h'' => ?_⟩ <;>
    simp [SaDi.tryFactory, SaDi.tryFactorySingleton, tryGetF, tryGetSingletonF,
      resolveF, h, *]

/-- C10 witness: register identity 0 in both scopes in sequence, then observe
each resolution entry point ignore the other scope's binding. -/
theorem c10_witness :
    (SaDi.new.tryFactory 0 (.make 0) = .ok ⟨[(0, .make 0)], []⟩) ∧
    ((SaDi.mk [(0, FProg.make 0)] []).tryFactorySingleton 0 (.make 0) =
      .ok ⟨[(0, .make 0)], [(0, .make 0)]⟩) ∧
    (tryGetF 1 (SaDi.mk [] [(0, FProg.make 0)]) 0 RState.empty =
      some (.error ("No transient factory registered for type: " ++ typeName 0),
        RState.empty)) ∧
    (tryGetSingletonF 1 (SaDi.mk [(0, FProg.make 0)] []) 0 RState.empty =
      some (.error ("No singleton factory registered for type: " ++ typeName 0),
        RState.empty)) :=
  ⟨(c10_theorem 0 SaDi.new 0 (.make 0) (.make 0) (.make 0) RState.empty).1 rfl,
   (c10_theorem 0 ⟨[(0, .make 0)], []⟩ 0 (.make 0) (.make 0) (.make 0) RState.empty).2.1 rfl,
   (c10_theorem 0 ⟨[], [(0, .make 0)]⟩ 0 (.make 0) (.make 0) (.make 0) RState.empty).2.2.1 rfl rfl,
   (c10_theorem 0 ⟨[(0, .make 0)], []⟩ 0 (.make 0) (.make 0) (.make 0) RState.empty).2.2.2 rfl rfl rfl⟩

/-- C2: in a registry where identity `A`'s factory resolves `B` and `B`'s
factory resolves `A`, resolution (from either entry point) terminates and
fails with a `CircularDependency` error reporting the full in-progress chain
in discovery order (`A -> B -> A`, resp. `B -> A -> B`): the engine threads a
call-path-scoped chain and fails as soon as a requested identity reappears. -/
theorem c2_theorem (fuel : Nat) (reg : SadiCrate.Registry) (cache : List Ty)
    (A B : Ty) (eA eB : SadiCrate.ProviderEntry)
    (hA : reg.lookup A = some eA) (hdA : eA.deps = [B])
    (hB : reg.lookup B = some eB) (hdB : eB.deps = [A])
    (hne : A ≠ B) (hcA : A ∉ cache) (hcB : B ∉ cache) :
    SadiCrate.resolve (fuel + 3) reg cache A [] =
      some (.error (SadiCrate.Error.circular_dependency
        [typeName A, typeName B, typeName A])) ∧
    SadiCrate.resolve (fuel + 3) reg cache B [] =
      some (.error (SadiCrate.Error.circular_dependency
        [typeName B, typeName A, typeName B])) := by
  have hne' : B ≠ A := hne.symm
  constructor <;>
    simp [SadiCrate.resolve, SadiCrate.resolveDepsWith, hA, hB, hdA, hdB,
      hne, hne', hcA, hcB]

/-- C2 witness: the two-identity cycle 0 ↔ 1 at a concrete registry. -/
theorem c2_witness :
    SadiCrate.resolve 3 [(0, ⟨.Transient, [1]⟩), (1, ⟨.Transient, [0]⟩)] [] 0 [] =
      some (.error (SadiCrate.Error.circular_dependency
        [typeName 0, typeName 1, typeName 0])) ∧
    SadiCrate.resolve 3 [(0, ⟨.Transient, [1]⟩), (1, ⟨.Transient, [0]⟩)] [] 1 [] =
      some (.error (SadiCrate.Error.circular_dependency
        [typeName 1, typeName 0, typeName 1])) :=
  c2_theorem 0 [(0, ⟨.Transient, [1]⟩), (1, ⟨.Transient, [0]⟩)] []
    0 1 ⟨.Transient, [1]⟩ ⟨.Transient, [0]⟩ rfl rfl rfl rfl
    (by decide) (by simp) (by simp)

/-- A successful association-list lookup comes from a member of the list. -/
theorem lookup_mem {β : Type} {l : List (Ty × β)} {t : Ty} {b : β}
    (h : l.lookup t = some b) : (t, b) ∈ l := by
  induction l with
  | nil => simp [List.lookup] at h
  | cons x xs ih =>
    obtain ⟨k, v⟩ := x
    by_cases hk : t = k
    · subst hk
      simp [List.lookup] at h
      simp [h]
    · simp only [List.lookup, beq_false_of_ne hk] at h
      exact List.mem_cons_of_mem _ (ih h)

/-- Any relation that is transitive and compatible with the allocation step is
an invariant of factory execution, provided the captured resolution methods
respect it. -/
theorem runFWith_rel (Rel : RState → RState → Prop)
    (htrans : ∀ {a b c : RState}, Rel a b → Rel b c → Rel a c)
    (hmake : ∀ st : RState, Rel st { st with alloc := st.alloc + 1 })
    (res : Scope → Ty → RState → Option (Except String Value × RState))
    (H : ∀ sc u st r st', res sc u st = some (r, st') → Rel st st') :
    ∀ p st w st', runFWith res p st = some (w, st') → Rel st st' := by
  intro p
  induction p with
  | make t =>
    intro st w st' h
    simp only [runFWith, Option.some.injEq, Prod.mk.injEq] at h
    rw [← h.2]
    exact hmake st
  | getTrans dep a b iha ihb =>
    intro st w st' h
    simp only [runFWith] at h
    cases hr : res .transient dep st with
    | none => rw [hr] at h; simp at h
    | some x =>
      obtain ⟨r, st1⟩ := x
      rw [hr] at h
      cases r with
      | ok v0 => exact htrans (H _ _ _ _ _ hr) (iha _ _ _ h)
      | error e => exact htrans (H _ _ _ _ _ hr) (ihb _ _ _ h)
  | getSing dep a b iha ihb =>
    intro st w st' h
    simp only [runFWith] at h
    cases hr : res .singleton dep st with
    | none => rw [hr] at h; simp at h
    | some x =>
      obtain ⟨r, st1⟩ := x
      rw [hr] at h
      cases r with
      | ok v0 => exact htrans (H _ _ _ _ _ hr) (iha _ _ _ h)
      | error e => exact htrans (H _ _ _ _ _ hr) (ihb _ _ _ h)

/-- Any reflexive, transitive relation compatible with the three primitive
state changes (allocation, invocation logging, cache insertion) is an
invariant of resolution. -/
theorem resolveF_rel (Rel : RState → RState → Prop)
    (hrefl : ∀ st, Rel st st)
    (htrans : ∀ {a b c : RState}, Rel a b → Rel b c → Rel a c)
    (hmake : ∀ st : RState, Rel st { st with alloc := st.alloc + 1 })
    (hinvoc : ∀ (st : RState) (sc : Scope) (u : Ty),
      Rel st { st with invocs := (sc, u) :: st.invocs })
    (hinsert : ∀ (st : RState) (u : Ty) (v : Value),
      Rel st { st with cache := (u, v) :: st.cache }) :
    ∀ fuel di sc u st r st', resolveF fuel di sc u st = some (r, st') → Rel st st' := by
  intro fuel
  induction fuel with
  | zero => intro di sc u st r st' h; simp [resolveF] at h
  | succ fuel ih =>
    intro di sc u st r st' h
    cases sc with
    | transient =>
      simp only [resolveF] at h
      cases hl : di.factories.lookup u with
      | none =>
        rw [hl] at h
        simp only [Option.some.injEq, Prod.mk.injEq] at h
        rw [← h.2]
        exact hrefl st
      | some f =>
        rw [hl] at h
        dsimp only at h
        cases hr : runFWith (resolveF fuel di) f
            { st with invocs := (Scope.transient, u) :: st.invocs } with
        | none => rw [hr] at h; simp at h
        | some x =>
          obtain ⟨v, st1⟩ := x
          rw [hr] at h
          have hrun : Rel st st1 :=
            htrans (hinvoc st .transient u)
              (runFWith_rel Rel htrans hmake _ (ih di) f _ v st1 hr)
          by_cases hv : v.ty = u
          · simp only [if_pos hv, Option.some.injEq, Prod.mk.injEq] at h
            rw [← h.2]
            exact hrun
          · simp only [if_neg hv, Option.some.injEq, Prod.mk.injEq] at h
            rw [← h.2]
            exact hrun
    | singleton =>
      simp only [resolveF] at h
      cases hc : st.cache.lookup u with
      | some v =>
        rw [hc] at h
        dsimp only at h
        by_cases hv : v.ty = u
        · simp only [if_pos hv, Option.some.injEq, Prod.mk.injEq] at h
          rw [← h.2]
          exact hrefl st
        · simp only [if_neg hv, Option.some.injEq, Prod.mk.injEq] at h
          rw [← h.2]
          exact hrefl st
      | none =>
        rw [hc] at h
        dsimp only at h
        cases hl : di.singletons.lookup u with
        | none =>
          rw [hl] at h
          simp only [Option.some.injEq, Prod.mk.injEq] at h
          rw [← h.2]
          exact hrefl st
        | some f =>
          rw [hl] at h
          dsimp only at h
          cases hr : runFWith (resolveF fuel di) f
              { st with invocs := (Scope.singleton, u) :: st.invocs } with
          | none => rw [hr] at h; simp at h
          | some x =>
            obtain ⟨v, st1⟩ := x
            rw [hr] at h
            have hrun : Rel st st1 :=
              htrans (hinvoc st .singleton u)
                (runFWith_rel Rel htrans hmake _ (ih di) f _ v st1 hr)
            by_cases hv : v.ty = u
            · simp only [if_pos hv, Option.some.injEq, Prod.mk.injEq] at h
              rw [← h.2]
              exact htrans hrun (hinsert st1 u v)
            · simp only [if_neg hv, Option.some.injEq, Prod.mk.injEq] at h
              rw [← h.2]
              exact hrun

/-- Whether a factory body contains a resolution call for `(sc, t)` anywhere
(including in unreached branches). -/
def FProg.callsResolve : FProg → Scope → Ty → Bool
  | .make _, _, _ => false
  | .getTrans dep a b, sc, t =>
    (sc == Scope.transient && dep == t) || a.callsResolve sc t || b.callsResolve sc t
  | .getSing dep a b, sc, t =>
    (sc == Scope.singleton && dep == t) || a.callsResolve sc t || b.callsResolve sc t

/-- No factory stored in the container resolves `(sc, t)`: resolution of
`(sc, t)` can then only be initiated by the external caller, never reentrantly
from inside a factory. -/
def SaDi.noReentry (di : SaDi) (sc : Scope) (t : Ty) : Prop :=
  (∀ x ∈ di.factories, x.2.callsResolve sc t = false) ∧
  (∀ x ∈ di.singletons, x.2.callsResolve sc t = false)

/-- Invariant lemma for factory execution that may rely on the factory never
resolving the distinguished pair `(sc₀, t₀)`. -/
theorem runFWith_rel_avoid (Rel : RState → RState → Prop)
    (htrans : ∀ {a b c : RState}, Rel a b → Rel b c → Rel a c)
    (hmake : ∀ st : RState, Rel st { st with alloc := st.alloc + 1 })
    (sc₀ : Scope) (t₀ : Ty)
    (res : Scope → Ty → RState → Option (Except String Value × RState))
    (H : ∀ sc u st r st', ¬(sc = sc₀ ∧ u = t₀) → res sc u st = some (r, st') →
      Rel st st') :
    ∀ p st w st', p.callsResolve sc₀ t₀ = false →
      runFWith res p st = some (w, st') → Rel st st' := by
  intro p
  induction p with
  | make t =>
    intro st w st' _ h
    simp only [runFWith, Option.some.injEq, Prod.mk.injEq] at h
    rw [← h.2]
    exact hmake st
  | getTrans dep a b iha ihb =>
    intro st w st' hcall h
    simp only [FProg.callsResolve, Bool.or_eq_false_iff, Bool.and_eq_false_iff,
      beq_eq_false_iff_ne, ne_eq] at hcall
    obtain ⟨⟨h1, ha⟩, hb⟩ := hcall
    have hne : ¬(Scope.transient = sc₀ ∧ dep = t₀) := by
      rintro ⟨hs, hd⟩
      rcases h1 with h1 | h1
      · exact h1 hs.symm
      · exact h1 hd
    simp only [runFWith] at h
    cases hr : res .transient dep st with
    | none => rw [hr] at h; simp at h
    | some x =>
      obtain ⟨r, st1⟩ := x
      rw [hr] at h
      cases r with
      | ok v0 => exact htrans (H _ _ _ _ _ hne hr) (iha _ _ _ ha h)
      | error e => exact htrans (H _ _ _ _ _ hne hr) (ihb _ _ _ hb h)
  | getSing dep a b iha ihb =>
    intro st w st' hcall h
    simp only [FProg.callsResolve, Bool.or_eq_false_iff, Bool.and_eq_false_iff,
      beq_eq_false_iff_ne, ne_eq] at hcall
    obtain ⟨⟨h1, ha⟩, hb⟩ := hcall
    have hne : ¬(Scope.singleton = sc₀ ∧ dep = t₀) := by
      rintro ⟨hs, hd⟩
      rcases h1 with h1 | h1
      · exact h1 hs.symm
      · exact h1 hd
    simp only [runFWith] at h
    cases hr : res .singleton dep st with
    | none => rw [hr] at h; simp at h
    | some x =>
      obtain ⟨r, st1⟩ := x
      rw [hr] at h
      cases r with
      | ok v0 => exact htrans (H _ _ _ _ _ hne hr) (iha _ _ _ ha h)
      | error e => exact htrans (H _ _ _ _ _ hne hr) (ihb _ _ _ hb h)

/-- Invariant lemma for resolution of any pair other than the distinguished
`(sc₀, t₀)`, in a container whose factories never resolve `(sc₀, t₀)`. -/
theorem resolveF_rel_avoid (Rel : RState → RState → Prop)
    (hrefl : ∀ st, Rel st st)
    (htrans : ∀ {a b c : RState}, Rel a b → Rel b c → Rel a c)
    (hmake : ∀ st : RState, Rel st { st with alloc := st.alloc + 1 })
    (sc₀ : Scope) (t₀ : Ty)
    (hinvoc : ∀ (st : RState) (sc : Scope) (u : Ty), ¬(sc = sc₀ ∧ u = t₀) →
      Rel st { st with invocs := (sc, u) :: st.invocs })
    (hinsert : ∀ (st : RState) (u : Ty) (v : Value), ¬(Scope.singleton = sc₀ ∧ u = t₀) →
      Rel st { st with cache := (u, v) :: st.cache })
    (di : SaDi) (hno : di.noReentry sc₀ t₀) :
    ∀ fuel sc u st r st', ¬(sc = sc₀ ∧ u = t₀) →
      resolveF fuel di sc u st = some (r, st') → Rel st st' := by
  intro fuel
  induction fuel with
  | zero => intro sc u st r st' _ h; simp [resolveF] at h
  | succ fuel ih =>
    intro sc u st r st' hne h
    cases sc with
    | transient =>
      simp only [resolveF] at h
      cases hl : di.factories.lookup u with
      | none =>
        rw [hl] at h
        simp only [Option.some.injEq, Prod.mk.injEq] at h
        rw [← h.2]
        exact hrefl st
      | some f =>
        rw [hl] at h
        dsimp only at h
        cases hr : runFWith (resolveF fuel di) f
            { st with invocs := (Scope.transient, u) :: st.invocs } with
        | none => rw [hr] at h; simp at h
        | some x =>
          obtain ⟨v, st1⟩ := x
          rw [hr] at h
          have hrun : Rel st st1 :=
            htrans (hinvoc st .transient u hne)
              (runFWith_rel_avoid Rel htrans hmake sc₀ t₀ _ ih f _ v st1
                (hno.1 (u, f) (lookup_mem hl)) hr)
          by_cases hv : v.ty = u
          · simp only [if_pos hv, Option.some.injEq, Prod.mk.injEq] at h
            rw [← h.2]
            exact hrun
          · simp only [if_neg hv, Option.some.injEq, Prod.mk.injEq] at h
            rw [← h.2]
            exact hrun
    | singleton =>
      simp only [resolveF] at h
      cases hc : st.cache.lookup u with
      | some v =>
        rw [hc] at h
        dsimp only at h
        by_cases hv : v.ty = u
        · simp only [if_pos hv, Option.some.injEq, Prod.mk.injEq] at h
          rw [← h.2]
          exact hrefl st
        · simp only [if_neg hv, Option.some.injEq, Prod.mk.injEq] at h
          rw [← h.2]
          exact hrefl st
      | none =>
        rw [hc] at h
        dsimp only at h
        cases hl : di.singletons.lookup u with
        | none =>
          rw [hl] at h
          simp only [Option.some.injEq, Prod.mk.injEq] at h
          rw [← h.2]
          exact hrefl st
        | some f =>
          rw [hl] at h
          dsimp only at h
          cases hr : runFWith (resolveF fuel di) f
              { st with invocs := (Scope.singleton, u) :: st.invocs } with
          | none => rw [hr] at h; simp at h
          | some x =>
            obtain ⟨v, st1⟩ := x
            rw [hr] at h
            have hrun : Rel st st1 :=
              htrans (hinvoc st .singleton u hne)
                (runFWith_rel_avoid Rel htrans hmake sc₀ t₀ _ ih f _ v st1
                  (hno.2 (u, f) (lookup_mem hl)) hr)
            by_cases hv : v.ty = u
            · simp only [if_pos hv, Option.some.injEq, Prod.mk.injEq] at h
              rw [← h.2]
              exact htrans hrun (hinsert st1 u v (fun hc' => hne (by simp [hc'.1.symm, hc'.2])))
            · simp only [if_neg hv, Option.some.injEq, Prod.mk.injEq] at h
              rw [← h.2]
              exact hrun

/-- Every resolution leaves the cache an extension of what it was: entries are
only ever added (by consing), never removed. -/
theorem resolveF_cache_extends :
    ∀ fuel di sc u st r st', resolveF fuel di sc u st = some (r, st') →
      ∃ ext, st'.cache = ext ++ st.cache := by
  refine resolveF_rel _ (fun st => ⟨[], rfl⟩) ?_ (fun st => ⟨[], rfl⟩)
    (fun st sc u => ⟨[], rfl⟩) (fun st u v => ⟨[(u, v)], rfl⟩)
  rintro a b c ⟨e1, h1⟩ ⟨e2, h2⟩
  exact ⟨e2 ++ e1, by rw [h2, h1, List.append_assoc]⟩

/-- The allocation counter never decreases across a resolution. -/
theorem resolveF_alloc_mono :
    ∀ fuel di sc u st r st', resolveF fuel di sc u st = some (r, st') →
      st.alloc ≤ st'.alloc := by
  refine resolveF_rel (fun st st' => st.alloc ≤ st'.alloc) (fun st => le_refl _)
    (fun h1 h2 => le_trans h1 h2) (fun st => Nat.le_succ _)
    (fun st sc u => le_refl _) (fun st u v => le_refl _)

/-- In a container whose factories never resolve `(sc₀, t₀)`, resolving any
other pair does not execute the `(sc₀, t₀)` factory. -/
theorem resolveF_cnt_preserved (di : SaDi) (sc₀ : Scope) (t₀ : Ty)
    (hno : di.noReentry sc₀ t₀) :
    ∀ fuel sc u st r st', ¬(sc = sc₀ ∧ u = t₀) →
      resolveF fuel di sc u st = some (r, st') →
      cnt st' sc₀ t₀ = cnt st sc₀ t₀ := by
  refine resolveF_rel_avoid (fun st st' => cnt st' sc₀ t₀ = cnt st sc₀ t₀)
    (fun st => rfl) (fun h1 h2 => h2.trans h1)
    (fun st => rfl) sc₀ t₀ ?_ (fun st u v _ => rfl) di hno
  intro st sc u hne
  have : (sc₀, t₀) ≠ (sc, u) := by
    intro hp
    exact hne ⟨(congrArg Prod.fst hp).symm, (congrArg Prod.snd hp).symm⟩
  simp [cnt, List.count_cons, this]

/-- In a container whose factories never resolve singleton `t₀`, resolving any
other pair leaves the cache slot of `t₀` exactly as it was. -/
theorem resolveF_cacheAt_preserved (di : SaDi) (t₀ : Ty)
    (hno : di.noReentry .singleton t₀) :
    ∀ fuel sc u st r st', ¬(sc = Scope.singleton ∧ u = t₀) →
      resolveF fuel di sc u st = some (r, st') →
      st'.cache.lookup t₀ = st.cache.lookup t₀ := by
  refine resolveF_rel_avoid
    (fun st st' => st'.cache.lookup t₀ = st.cache.lookup t₀)
    (fun st => rfl) (fun h1 h2 => h2.trans h1)
    (fun st => rfl) .singleton t₀ (fun st sc u _ => rfl) ?_ di hno
  intro st u v hne
  have hu : ¬(t₀ = u) := fun hc => hne ⟨rfl, hc.symm⟩
  simp [List.lookup, beq_false_of_ne hu]

/-- Factory-execution forms of the preservation lemmas. -/
theorem runFWith_cnt_preserved (di : SaDi) (sc₀ : Scope) (t₀ : Ty)
    (hno : di.noReentry sc₀ t₀) (fuel : Nat) :
    ∀ p st w st', p.callsResolve sc₀ t₀ = false →
      runFWith (resolveF fuel di) p st = some (w, st') →
      cnt st' sc₀ t₀ = cnt st sc₀ t₀ := by
  refine runFWith_rel_avoid (fun st st' => cnt st' sc₀ t₀ = cnt st sc₀ t₀)
    (fun h1 h2 => h2.trans h1) (fun st => rfl) sc₀ t₀ _ ?_
  intro sc u st r st' hne h
  exact resolveF_cnt_preserved di sc₀ t₀ hno fuel sc u st r st' hne h

theorem runFWith_cacheAt_preserved (di : SaDi) (t₀ : Ty)
    (hno : di.noReentry .singleton t₀) (fuel : Nat) :
    ∀ p st w st', p.callsResolve .singleton t₀ = false →
      runFWith (resolveF fuel di) p st = some (w, st') →
      st'.cache.lookup t₀ = st.cache.lookup t₀ := by
  refine runFWith_rel_avoid
    (fun st st' => st'.cache.lookup t₀ = st.cache.lookup t₀)
    (fun h1 h2 => h2.trans h1) (fun st => rfl) .singleton t₀ _ ?_
  intro sc u st r st' hne h
  exact resolveF_cacheAt_preserved di t₀ hno fuel sc u st r st' hne h

/-- Every value produced by a factory execution is freshly allocated: its
instance identity is new (drawn at or after the starting counter) and consumed
(below the final counter). -/
theorem runFWith_fresh (fuel : Nat) (di : SaDi) :
    ∀ p st w st', runFWith (resolveF fuel di) p st = some (w, st') →
      st.alloc ≤ w.inst ∧ w.inst < st'.alloc := by
  intro p
  induction p with
  | make t =>
    intro st w st' h
    simp only [runFWith, Option.some.injEq, Prod.mk.injEq] at h
    rw [← h.1, ← h.2]
    exact ⟨le_refl _, Nat.lt_succ_self _⟩
  | getTrans dep a b iha ihb =>
    intro st w st' h
    simp only [runFWith] at h
    cases hr : resolveF fuel di .transient dep st with
    | none => rw [hr] at h; simp at h
    | some x =>
      obtain ⟨r, st1⟩ := x
      rw [hr] at h
      have hmono : st.alloc ≤ st1.alloc := resolveF_alloc_mono fuel di _ _ _ _ _ hr
      cases r with
      | ok v0 =>
        obtain ⟨h1, h2⟩ := iha _ _ _ h
        exact ⟨le_trans hmono h1, h2⟩
      | error e =>
        obtain ⟨h1, h2⟩ := ihb _ _ _ h
        exact ⟨le_trans hmono h1, h2⟩
  | getSing dep a b iha ihb =>
    intro st w st' h
    simp only [runFWith] at h
    cases hr : resolveF fuel di .singleton dep st with
    | none => rw [hr] at h; simp at h
    | some x =>
      obtain ⟨r, st1⟩ := x
      rw [hr] at h
      have hmono : st.alloc ≤ st1.alloc := resolveF_alloc_mono fuel di _ _ _ _ _ hr
      cases r with
      | ok v0 =>
        obtain ⟨h1, h2⟩ := iha _ _ _ h
        exact ⟨le_trans hmono h1, h2⟩
      | error e =>
        obtain ⟨h1, h2⟩ := ihb _ _ _ h
        exact ⟨le_trans hmono h1, h2⟩

/-- A successful transient resolution of a registered, non-reentrant identity
executes its factory exactly once and returns a freshly allocated,
correctly-typed value. -/
theorem tryGet_ok_spec (di : SaDi) (t : Ty) (p : FProg)
    (hno : di.noReentry .transient t) (hreg : di.factories.lookup t = some p) :
    ∀ fuel st v st', tryGetF fuel di t st = some (.ok v, st') →
      cnt st' .transient t = cnt st .transient t + 1 ∧
      st.alloc ≤ v.inst ∧ v.inst < st'.alloc ∧ v.ty = t := by
  intro fuel st v st' h
  cases fuel with
  | zero => simp [tryGetF, resolveF] at h
  | succ fuel =>
    simp only [tryGetF, resolveF] at h
    rw [hreg] at h
    dsimp only at h
    cases hr : runFWith (resolveF fuel di) p
        { st with invocs := (Scope.transient, t) :: st.invocs } with
    | none => rw [hr] at h; simp at h
    | some x =>
      obtain ⟨w, st1⟩ := x
      rw [hr] at h
      by_cases hv : w.ty = t
      · simp only [if_pos hv, Option.some.injEq, Prod.mk.injEq, Except.ok.injEq] at h
        obtain ⟨h1, h2⟩ := h
        rw [← h1, ← h2]
        have hcnt : cnt st1 .transient t =
            cnt { st with invocs := (Scope.transient, t) :: st.invocs } .transient t :=
          runFWith_cnt_preserved di .transient t hno fuel p _ _ _
            (hno.1 (t, p) (lookup_mem hreg)) hr
        have hfresh := runFWith_fresh fuel di p _ _ _ hr
        refine ⟨?_, hfresh.1, hfresh.2, hv⟩
        rw [hcnt]
        simp [cnt, List.count_cons]
      · simp only [if_neg hv, Option.some.injEq, Prod.mk.injEq] at h
        exact absurd h.1 (by simp)

/-- A successful singleton resolution from a cache-miss state executes the
factory exactly once, returns a correctly-typed value and publishes it in the
cache under the resolved identity. -/
theorem tryGetSing_miss_ok_spec (di : SaDi) (t : Ty)
    (hno : di.noReentry .singleton t) :
    ∀ fuel st v st', st.cache.lookup t = none →
      tryGetSingletonF fuel di t st = some (.ok v, st') →
      cnt st' .singleton t = cnt st .singleton t + 1 ∧
      v.ty = t ∧ st'.cache.lookup t = some v := by
  intro fuel st v st' hmiss h
  cases fuel with
  | zero => simp [tryGetSingletonF, resolveF] at h
  | succ fuel =>
    simp only [tryGetSingletonF, resolveF] at h
    rw [hmiss] at h
    dsimp only at h
    cases hl : di.singletons.lookup t with
    | none => rw [hl] at h; simp at h
    | some f =>
      rw [hl] at h
      dsimp only at h
      cases hr : runFWith (resolveF fuel di) f
          { st with invocs := (Scope.singleton, t) :: st.invocs } with
      | none => rw [hr] at h; simp at h
      | some x =>
        obtain ⟨w, st1⟩ := x
        rw [hr] at h
        by_cases hv : w.ty = t
        · simp only [if_pos hv, Option.some.injEq, Prod.mk.injEq, Except.ok.injEq] at h
          obtain ⟨h1, h2⟩ := h
          subst h1
          rw [← h2]
          have hcnt : cnt st1 .singleton t =
              cnt { st with invocs := (Scope.singleton, t) :: st.invocs } .singleton t :=
            runFWith_cnt_preserved di .singleton t hno fuel f _ _ _
              (hno.2 (t, f) (lookup_mem hl)) hr
          refine ⟨?_, hv, ?_⟩
          · show cnt st1 .singleton t = cnt st .singleton t + 1
            rw [hcnt]
            simp [cnt, List.count_cons]
          · simp [List.lookup]
        · simp only [if_neg hv, Option.some.injEq, Prod.mk.injEq] at h
          exact absurd h.1 (by simp)

/-- A singleton resolution that finds a correctly-typed cached instance
returns it with the state completely unchanged: no factory invocation, no
allocation, no cache modification. -/
theorem tryGetSing_hit (fuel : Nat) (di : SaDi) (t : Ty) (st : RState) (v : Value)
    (hhit : st.cache.lookup t = some v) (hty : v.ty = t) :
    tryGetSingletonF (fuel + 1) di t st = some (.ok v, st) := by
  simp [tryGetSingletonF, resolveF, hhit, hty]

/-- N sequential transient resolutions (`try_get` in a row), all successful. -/
def getN (fuel : Nat) (di : SaDi) (t : Ty) : Nat → RState → Option (List Value × RState)
  | 0, st => some ([], st)
  | n + 1, st =>
    match tryGetF fuel di t st with
    | some (.ok v, st') =>
      match getN fuel di t n st' with
      | some (vs, st'') => some (v :: vs, st'')
      | none => none
    | _ => none

/-- N sequential singleton resolutions (`try_get_singleton` in a row), all
successful. -/
def getSingN (fuel : Nat) (di : SaDi) (t : Ty) : Nat → RState → Option (List Value × RState)
  | 0, st => some ([], st)
  | n + 1, st =>
    match tryGetSingletonF fuel di t st with
    | some (.ok v, st') =>
      match getSingN fuel di t n st' with
      | some (vs, st'') => some (v :: vs, st'')
      | none => none
    | _ => none

/-- Full characterization of N successful transient resolutions: exactly N
factory executions and strictly increasing (hence pairwise distinct) fresh
instance identities. -/
theorem getN_spec (fuel : Nat) (di : SaDi) (t : Ty) (p : FProg)
    (hno : di.noReentry .transient t) (hreg : di.factories.lookup t = some p) :
    ∀ N st0 vs stN, getN fuel di t N st0 = some (vs, stN) →
      vs.length = N ∧
      cnt stN .transient t = cnt st0 .transient t + N ∧
      st0.alloc ≤ stN.alloc ∧
      (∀ w ∈ vs, st0.alloc ≤ w.inst ∧ w.inst < stN.alloc) ∧
      vs.Pairwise (fun a b => a.inst < b.inst) := by
  intro N
  induction N with
  | zero =>
    intro st0 vs stN h
    simp only [getN, Option.some.injEq, Prod.mk.injEq] at h
    obtain ⟨h1, h2⟩ := h
    subst h1
    subst h2
    simp
  | succ N ih =>
    intro st0 vs stN h
    simp only [getN] at h
    cases hr : tryGetF fuel di t st0 with
    | none => rw [hr] at h; simp at h
    | some x =>
      obtain ⟨r, st1⟩ := x
      rw [hr] at h
      cases r with
      | error e => simp at h
      | ok v =>
        dsimp only at h
        cases hg : getN fuel di t N st1 with
        | none => rw [hg] at h; simp at h
        | some y =>
          obtain ⟨vs', stN'⟩ := y
          rw [hg] at h
          simp only [Option.some.injEq, Prod.mk.injEq] at h
          obtain ⟨hvs, hstN⟩ := h
          subst hvs
          subst hstN
          obtain ⟨hcnt1, hlo, hhi, hty⟩ := tryGet_ok_spec di t p hno hreg fuel st0 v st1 hr
          obtain ⟨hlen, hcnt, hmono, hbound, hpw⟩ := ih st1 vs' stN' hg
          have hst1N : st1.alloc ≤ stN'.alloc := hmono
          refine ⟨by simp [hlen], by omega,
            le_trans (le_trans hlo (le_of_lt hhi)) hst1N, ?_, ?_⟩
          · intro w hw
            rcases List.mem_cons.mp hw with hw | hw
            · subst hw
              exact ⟨hlo, lt_of_lt_of_le hhi hst1N⟩
            · obtain ⟨h1, h2⟩ := hbound w hw
              exact ⟨le_trans (le_trans hlo (le_of_lt hhi)) h1, h2⟩
          · refine List.Pairwise.cons ?_ hpw
            intro w hw
            exact lt_of_lt_of_le hhi (hbound w hw).1

/-- C5: for a transient-registered identity (whose factories are not
reentrant on it), N successful resolutions execute the registered factory
exactly N times, and the N returned instances are constructed fresh every
time — their identities are strictly increasing, hence pairwise distinct. -/
theorem c5_theorem (fuel : Nat) (di : SaDi) (t : Ty) (p : FProg)
    (st0 stN : RState) (N : Nat) (vs : List Value)
    (hno : di.noReentry .transient t) (hreg : di.factories.lookup t = some p)
    (h : getN fuel di t N st0 = some (vs, stN)) :
    vs.length = N ∧
    cnt stN .transient t = cnt st0 .transient t + N ∧
    vs.Pairwise (fun a b => a.inst < b.inst) := by
  obtain ⟨h1, h2, _, _, h5⟩ := getN_spec fuel di t p hno hreg N st0 vs stN h
  exact ⟨h1, h2, h5⟩

/-- C5 witness: three transient resolutions of identity 0 from a fresh
container run the factory three times and yield three distinct instances. -/
theorem c5_witness :
    ([⟨0, 0⟩, ⟨0, 1⟩, ⟨0, 2⟩] : List Value).length = 3 ∧
    cnt ⟨[], 3, [(.transient, 0), (.transient, 0), (.transient, 0)]⟩ .transient 0 =
      cnt RState.empty .transient 0 + 3 ∧
    ([⟨0, 0⟩, ⟨0, 1⟩, ⟨0, 2⟩] : List Value).Pairwise (fun a b => a.inst < b.inst) :=
  c5_theorem 1 ⟨[(0, .make 0)], []⟩ 0 (.make 0) RState.empty
    ⟨[], 3, [(.transient, 0), (.transient, 0), (.transient, 0)]⟩ 3
    [⟨0, 0⟩, ⟨0, 1⟩, ⟨0, 2⟩]
    (by constructor <;> simp [FProg.callsResolve]) rfl (by rfl)

/-- Repeated singleton resolutions after the instance is cached return the
cached value each time without changing the state at all. -/
theorem getSingN_stable (fuel : Nat) (di : SaDi) (t : Ty) :
    ∀ M st v, st.cache.lookup t = some v → v.ty = t →
      getSingN (fuel + 1) di t M st = some (List.replicate M v, st) := by
  intro M
  induction M with
  | zero => intro st v _ _; simp [getSingN]
  | succ M ih =>
    intro st v hhit hty
    simp only [getSingN]
    rw [tryGetSing_hit fuel di t st v hhit hty]
    dsimp only
    rw [ih st v hhit hty]
    simp [List.replicate]

/-- C3: for a singleton-registered identity (whose factories are not
reentrant on it), N+1 successful sequential resolutions from a state where it
is not yet cached all return the very same instance (reference identity), and
the registered factory is executed exactly once — on the first resolution. -/
theorem c3_theorem (fuel : Nat) (di : SaDi) (t : Ty) (st0 stN : RState)
    (N : Nat) (vs : List Value)
    (hno : di.noReentry .singleton t) (hmiss : st0.cache.lookup t = none)
    (h : getSingN fuel di t (N + 1) st0 = some (vs, stN)) :
    ∃ v, vs = List.replicate (N + 1) v ∧ v.ty = t ∧
      cnt stN .singleton t = cnt st0 .singleton t + 1 := by
  rcases fuel with _ | fuel
  · simp [getSingN, tryGetSingletonF, resolveF] at h
  · simp only [getSingN] at h
    cases hr : tryGetSingletonF (fuel + 1) di t st0 with
    | none => rw [hr] at h; simp at h
    | some x =>
      obtain ⟨r, st1⟩ := x
      rw [hr] at h
      cases r with
      | error e => simp at h
      | ok v =>
        dsimp only at h
        obtain ⟨hcnt1, hty, hcached⟩ :=
          tryGetSing_miss_ok_spec di t hno (fuel + 1) st0 v st1 hmiss hr
        rw [getSingN_stable fuel di t N st1 v hcached hty] at h
        simp only [Option.some.injEq, Prod.mk.injEq] at h
        obtain ⟨hvs, hstN⟩ := h
        refine ⟨v, ?_, hty, ?_⟩
        · rw [← hvs]
          rfl
        · rw [← hstN]
          omega

/-- C3 witness: three singleton resolutions of identity 0 from a fresh
container return one and the same instance, with one factory execution. -/
theorem c3_witness :
    ∃ v : Value, ([⟨0, 0⟩, ⟨0, 0⟩, ⟨0, 0⟩] : List Value) = List.replicate 3 v ∧
      v.ty = 0 ∧
      cnt ⟨[(0, ⟨0, 0⟩)], 1, [(.singleton, 0)]⟩ .singleton 0 =
        cnt RState.empty .singleton 0 + 1 :=
  c3_theorem 2 ⟨[], [(0, .make 0)]⟩ 0 RState.empty
    ⟨[(0, ⟨0, 0⟩)], 1, [(.singleton, 0)]⟩ 2 [⟨0, 0⟩, ⟨0, 0⟩, ⟨0, 0⟩]
    (by constructor <;> simp [FProg.callsResolve]) rfl (by rfl)

/-- C4: a singleton identity whose (correctly typed) instance is already in
the cache is resolved to exactly that instance with the state completely
unchanged — no factory invocation, no allocation — and, in a container whose
factories are not reentrant on it, no subsequent resolution of anything ever
removes or replaces the cached entry. -/
theorem c4_theorem (fuel : Nat) (di : SaDi) (t : Ty) (st : RState) (v : Value)
    (hno : di.noReentry .singleton t)
    (hhit : st.cache.lookup t = some v) (hty : v.ty = t) :
    tryGetSingletonF (fuel + 1) di t st = some (.ok v, st) ∧
    (∀ fuel' sc u r st', resolveF fuel' di sc u st = some (r, st') →
      st'.cache.lookup t = some v) := by
  refine ⟨tryGetSing_hit fuel di t st v hhit hty, ?_⟩
  intro fuel' sc u r st' h
  by_cases hcase : sc = Scope.singleton ∧ u = t
  · obtain ⟨hs, hu⟩ := hcase
    subst hs
    subst hu
    cases fuel' with
    | zero => simp [resolveF] at h
    | succ fuel' =>
      simp only [resolveF] at h
      rw [hhit] at h
      dsimp only at h
      rw [if_pos hty] at h
      simp only [Option.some.injEq, Prod.mk.injEq] at h
      rw [← h.2]
      exact hhit
  · rw [resolveF_cacheAt_preserved di t hno fuel' sc u st r st' hcase h]
    exact hhit

/-- C4 witness: a cached instance is returned as-is, and survives an
unrelated (failing) resolution untouched. -/
theorem c4_witness :
    tryGetSingletonF 1 ⟨[], [(0, .make 0)]⟩ 0 ⟨[(0, ⟨0, 0⟩)], 1, []⟩ =
      some (.ok ⟨0, 0⟩, ⟨[(0, ⟨0, 0⟩)], 1, []⟩) ∧
    (⟨[(0, ⟨0, 0⟩)], 1, []⟩ : RState).cache.lookup 0 = some ⟨0, 0⟩ :=
  ⟨(c4_theorem 0 ⟨[], [(0, .make 0)]⟩ 0 ⟨[(0, ⟨0, 0⟩)], 1, []⟩ ⟨0, 0⟩
      (by constructor <;> simp [FProg.callsResolve]) rfl rfl).1,
   (c4_theorem 0 ⟨[], [(0, .make 0)]⟩ 0 ⟨[(0, ⟨0, 0⟩)], 1, []⟩ ⟨0, 0⟩
      (by constructor <;> simp [FProg.callsResolve]) rfl rfl).2 1 .transient 5
      (.error ("No transient factory registered for type: " ++ typeName 5))
      ⟨[(0, ⟨0, 0⟩)], 1, []⟩ rfl⟩

/-- C9 counterexample: a failing resolution can leave the singleton cache
changed.  Identity 10's transient factory first resolves singleton 20
(successfully, caching it) and then constructs a value of the wrong type, so
resolving 10 returns an error — yet the cache gained the entry for 20. -/
theorem c9_counterexample :
    tryGetF 3 ⟨[(10, .getSing 20 (.make 30) (.make 30))], [(20, .make 20)]⟩ 10
        RState.empty =
      some (.error ("Factory returned wrong type for: " ++ typeName 10),
        ⟨[(20, ⟨20, 0⟩)], 2, [(.singleton, 20), (.transient, 10)]⟩) ∧
    (⟨[(20, ⟨20, 0⟩)], 2, [(.singleton, 20), (.transient, 10)]⟩ : RState).cache ≠
      RState.empty.cache :=
  ⟨rfl, by simp [RState.empty]⟩

/-- C9 (amended): resolution never mutates the factory maps (the container is
only ever read); the singleton cache is only ever extended, never shrunk; and
a resolution whose factory performs no nested resolution leaves the cache
exactly as it was whenever it fails — in general, entries cached by nested
successful singleton resolutions inside the factory persist even when the
outer resolution returns an error. -/
theorem c9_theorem (fuel : Nat) (di : SaDi) (sc : Scope) (t u : Ty) (st : RState)
    (r : Except String Value) (st' : RState) :
    (resolveF fuel di sc t st = some (r, st') → ∃ ext, st'.cache = ext ++ st.cache) ∧
    (di.factories.lookup t = some (.make u) →
      tryGetF (fuel + 1) di t st = some (r, st') → st'.cache = st.cache) ∧
    (di.singletons.lookup t = some (.make u) → u ≠ t → st.cache.lookup t = none →
      tryGetSingletonF (fuel + 1) di t st = some (r, st') → st'.cache = st.cache) := by
  refine ⟨fun h => resolveF_cache_extends fuel di sc t st r st' h, fun hreg h => ?_,
    fun hreg hne hmiss h => ?_⟩
  · simp only [tryGetF, resolveF, hreg] at h
    dsimp only [runFWith] at h
    split at h <;>
    · simp only [Option.some.injEq, Prod.mk.injEq] at h
      rw [← h.2]
  · simp only [tryGetSingletonF, resolveF, hmiss, hreg] at h
    dsimp only [runFWith] at h
    rw [if_neg hne] at h
    simp only [Option.some.injEq, Prod.mk.injEq] at h
    rw [← h.2]

/-- C9 witness for the amended claim at concrete inputs. -/
theorem c9_witness :
    (∃ ext, ([(20, (⟨20, 0⟩ : Value))] : List (Ty × Value)) = ext ++ RState.empty.cache) ∧
    ((⟨[], 1, [(.transient, 0)]⟩ : RState).cache = RState.empty.cache) ∧
    ((⟨[], 1, [(.singleton, 0)]⟩ : RState).cache = RState.empty.cache) :=
  ⟨(c9_theorem 1 ⟨[], [(20, .make 20)]⟩ .singleton 20 0 RState.empty
      (.ok ⟨20, 0⟩) ⟨[(20, ⟨20, 0⟩)], 1, [(.singleton, 20)]⟩).1 rfl,
   (c9_theorem 0 ⟨[(0, .make 5)], []⟩ .transient 0 5 RState.empty
      (.error ("Factory returned wrong type for: " ++ typeName 0))
      ⟨[], 1, [(.transient, 0)]⟩).2.1 rfl rfl,
   (c9_theorem 0 ⟨[], [(0, .make 5)]⟩ .singleton 0 5 RState.empty
      (.error ("Factory returned wrong type for: " ++ typeName 0))
      ⟨[], 1, [(.singleton, 0)]⟩).2.2 rfl (by decide) rfl rfl⟩

/-- Whether every value a factory body can construct has the given runtime
type (all of its `make` leaves carry that type). -/
def FProg.producesOnly : FProg → Ty → Bool
  | .make u, t => u == t
  | .getTrans _ a b, t => a.producesOnly t && b.producesOnly t
  | .getSing _ a b, t => a.producesOnly t && b.producesOnly t

/-- Correct registration: every stored factory produces exactly the type it
is keyed under. -/
def SaDi.wellTyped (di : SaDi) : Prop :=
  (∀ x ∈ di.factories, x.2.producesOnly x.1 = true) ∧
  (∀ x ∈ di.singletons, x.2.producesOnly x.1 = true)

/-- Every cached instance has the runtime type it is keyed under. -/
def RState.cacheTyped (st : RState) : Prop :=
  ∀ x ∈ st.cache, (x.2 : Value).ty = x.1

/-- A factory that produces only type `t`, run with resolution methods that
preserve cache typing, returns a value of type `t` and preserves cache
typing. -/
theorem runFWith_wellTyped
    (res : Scope → Ty → RState → Option (Except String Value × RState))
    (H : ∀ sc u st r st', res sc u st = some (r, st') →
      st.cacheTyped → st'.cacheTyped) :
    ∀ p t st w st', p.producesOnly t = true → st.cacheTyped →
      runFWith res p st = some (w, st') → w.ty = t ∧ st'.cacheTyped := by
  intro p
  induction p with
  | make u =>
    intro t st w st' hp hct h
    simp only [FProg.producesOnly, beq_iff_eq] at hp
    simp only [runFWith, Option.some.injEq, Prod.mk.injEq] at h
    rw [← h.1, ← h.2]
    exact ⟨hp, hct⟩
  | getTrans dep a b iha ihb =>
    intro t st w st' hp hct h
    simp only [FProg.producesOnly, Bool.and_eq_true] at hp
    simp only [runFWith] at h
    cases hr : res .transient dep st with
    | none => rw [hr] at h; simp at h
    | some x =>
      obtain ⟨r, st1⟩ := x
      rw [hr] at h
      have hct1 := H _ _ _ _ _ hr hct
      cases r with
      | ok v0 => exact iha t st1 w st' hp.1 hct1 h
      | error e => exact ihb t st1 w st' hp.2 hct1 h
  | getSing dep a b iha ihb =>
    intro t st w st' hp hct h
    simp only [FProg.producesOnly, Bool.and_eq_true] at hp
    simp only [runFWith] at h
    cases hr : res .singleton dep st with
    | none => rw [hr] at h; simp at h
    | some x =>
      obtain ⟨r, st1⟩ := x
      rw [hr] at h
      have hct1 := H _ _ _ _ _ hr hct
      cases r with
      | ok v0 => exact iha t st1 w st' hp.1 hct1 h
      | error e => exact ihb t st1 w st' hp.2 hct1 h

/-- Under correct registration, resolution preserves cache typing, every
successful result has the requested type, and the only errors ever returned
are the `not registered` ones: both wrong-type branches are unreachable. -/
theorem resolveF_wellTyped (di : SaDi) (hwt : di.wellTyped) :
    ∀ fuel sc t st r st', st.cacheTyped → resolveF fuel di sc t st = some (r, st') →
      st'.cacheTyped ∧ (∀ v, r = .ok v → v.ty = t) ∧
      (∀ e, r = .error e →
        e = "No transient factory registered for type: " ++ typeName t ∨
        e = "No singleton factory registered for type: " ++ typeName t) := by
  intro fuel
  induction fuel with
  | zero => intro sc t st r st' _ h; simp [resolveF] at h
  | succ fuel ih =>
    intro sc t st r st' hct h
    cases sc with
    | transient =>
      simp only [resolveF] at h
      cases hl : di.factories.lookup t with
      | none =>
        rw [hl] at h
        simp only [Option.some.injEq, Prod.mk.injEq] at h
        rw [← h.1, ← h.2]
        exact ⟨hct, by simp, by simp⟩
      | some f =>
        rw [hl] at h
        dsimp only at h
        cases hr : runFWith (resolveF fuel di) f
            { st with invocs := (Scope.transient, t) :: st.invocs } with
        | none => rw [hr] at h; simp at h
        | some x =>
          obtain ⟨w, st1⟩ := x
          rw [hr] at h
          have hw : w.ty = t ∧ st1.cacheTyped :=
            runFWith_wellTyped _ (fun sc u st r st' hres hct' => (ih sc u st r st' hct' hres).1)
              f t { st with invocs := (Scope.transient, t) :: st.invocs } w st1
              (hwt.1 (t, f) (lookup_mem hl)) hct hr
          dsimp only at h
          rw [if_pos hw.1] at h
          simp only [Option.some.injEq, Prod.mk.injEq] at h
          rw [← h.1, ← h.2]
          refine ⟨hw.2, ?_, by simp⟩
          intro v hv
          rw [← Except.ok.inj hv]
          exact hw.1
    | singleton =>
      simp only [resolveF] at h
      cases hc : st.cache.lookup t with
      | some v =>
        rw [hc] at h
        dsimp only at h
        have hvty : v.ty = t := hct (t, v) (lookup_mem hc)
        rw [if_pos hvty] at h
        simp only [Option.some.injEq, Prod.mk.injEq] at h
        rw [← h.1, ← h.2]
        refine ⟨hct, ?_, by simp⟩
        intro v' hv'
        rw [← Except.ok.inj hv']
        exact hvty
      | none =>
        rw [hc] at h
        dsimp only at h
        cases hl : di.singletons.lookup t with
        | none =>
          rw [hl] at h
          simp only [Option.some.injEq, Prod.mk.injEq] at h
          rw [← h.1, ← h.2]
          exact ⟨hct, by simp, by simp⟩
        | some f =>
          rw [hl] at h
          dsimp only at h
          cases hr : runFWith (resolveF fuel di) f
              { st with invocs := (Scope.singleton, t) :: st.invocs } with
          | none => rw [hr] at h; simp at h
          | some x =>
            obtain ⟨w, st1⟩ := x
            rw [hr] at h
            have hw : w.ty = t ∧ st1.cacheTyped :=
              runFWith_wellTyped _ (fun sc u st r st' hres hct' => (ih sc u st r st' hct' hres).1)
                f t { st with invocs := (Scope.singleton, t) :: st.invocs } w st1
                (hwt.2 (t, f) (lookup_mem hl)) hct hr
            dsimp only at h
            rw [if_pos hw.1] at h
            simp only [Option.some.injEq, Prod.mk.injEq] at h
            rw [← h.1, ← h.2]
            refine ⟨?_, ?_, by simp⟩
            · intro x hx
              rcases List.mem_cons.mp hx with hx | hx
              · rw [hx]
                exact hw.1
              · exact hw.2 x hx
            · intro v hv
              rw [← Except.ok.inj hv]
              exact hw.1

/-- Every successful resolution returns a value whose runtime type is the
requested identity: a wrong-typed value is never silently returned. -/
theorem resolveF_ok_ty :
    ∀ fuel di sc t st v st', resolveF fuel di sc t st = some (.ok v, st') →
      v.ty = t := by
  intro fuel di sc t st v st' h
  cases fuel with
  | zero => simp [resolveF] at h
  | succ fuel =>
    cases sc with
    | transient =>
      simp only [resolveF] at h
      cases hl : di.factories.lookup t with
      | none => rw [hl] at h; simp at h
      | some f =>
        rw [hl] at h
        dsimp only at h
        cases hr : runFWith (resolveF fuel di) f
            { st with invocs := (Scope.transient, t) :: st.invocs } with
        | none => rw [hr] at h; simp at h
        | some x =>
          obtain ⟨w, st1⟩ := x
          rw [hr] at h
          dsimp only at h
          by_cases hv : w.ty = t
          · rw [if_pos hv] at h
            simp only [Option.some.injEq, Prod.mk.injEq, Except.ok.injEq] at h
            rw [← h.1]
            exact hv
          · rw [if_neg hv] at h
            simp at h
    | singleton =>
      simp only [resolveF] at h
      cases hc : st.cache.lookup t with
      | some w =>
        rw [hc] at h
        dsimp only at h
        by_cases hv : w.ty = t
        · rw [if_pos hv] at h
          simp only [Option.some.injEq, Prod.mk.injEq, Except.ok.injEq] at h
          rw [← h.1]
          exact hv
        · rw [if_neg hv] at h
          simp at h
      | none =>
        rw [hc] at h
        dsimp only at h
        cases hl : di.singletons.lookup t with
        | none => rw [hl] at h; simp at h
        | some f =>
          rw [hl] at h
          dsimp only at h
          cases hr : runFWith (resolveF fuel di) f
              { st with invocs := (Scope.singleton, t) :: st.invocs } with
          | none => rw [hr] at h; simp at h
          | some x =>
            obtain ⟨w, st1⟩ := x
            rw [hr] at h
            dsimp only at h
            by_cases hv : w.ty = t
            · rw [if_pos hv] at h
              simp only [Option.some.injEq, Prod.mk.injEq, Except.ok.injEq] at h
              rw [← h.1]
              exact hv
            · rw [if_neg hv] at h
              simp at h

/-- The complete enumeration of error messages each resolution entry point can
produce, for arbitrary (even ill-typed) containers and states. -/
theorem resolveF_error_enum :
    ∀ fuel di sc t st e st', resolveF fuel di sc t st = some (.error e, st') →
      (sc = Scope.transient →
        e = "No transient factory registered for type: " ++ typeName t ∨
        e = "Factory returned wrong type for: " ++ typeName t) ∧
      (sc = Scope.singleton →
        e = "No singleton factory registered for type: " ++ typeName t ∨
        e = "Factory returned wrong type for: " ++ typeName t ∨
        e = "Cached instance has wrong type for: " ++ typeName t) := by
  intro fuel di sc t st e st' h
  cases fuel with
  | zero => simp [resolveF] at h
  | succ fuel =>
    cases sc with
    | transient =>
      refine ⟨fun _ => ?_, fun hc => absurd hc (by simp)⟩
      simp only [resolveF] at h
      cases hl : di.factories.lookup t with
      | none =>
        rw [hl] at h
        simp only [Option.some.injEq, Prod.mk.injEq, Except.error.injEq] at h
        exact Or.inl h.1.symm
      | some f =>
        rw [hl] at h
        dsimp only at h
        cases hr : runFWith (resolveF fuel di) f
            { st with invocs := (Scope.transient, t) :: st.invocs } with
        | none => rw [hr] at h; simp at h
        | some x =>
          obtain ⟨w, st1⟩ := x
          rw [hr] at h
          dsimp only at h
          by_cases hv : w.ty = t
          · rw [if_pos hv] at h
            simp at h
          · rw [if_neg hv] at h
            simp only [Option.some.injEq, Prod.mk.injEq, Except.error.injEq] at h
            exact Or.inr h.1.symm
    | singleton =>
      refine ⟨fun hc => absurd hc (by simp), fun _ => ?_⟩
      simp only [resolveF] at h
      cases hc : st.cache.lookup t with
      | some w =>
        rw [hc] at h
        dsimp only at h
        by_cases hv : w.ty = t
        · rw [if_pos hv] at h
          simp at h
        · rw [if_neg hv] at h
          simp only [Option.some.injEq, Prod.mk.injEq, Except.error.injEq] at h
          exact Or.inr (Or.inr h.1.symm)
      | none =>
        rw [hc] at h
        dsimp only at h
        cases hl : di.singletons.lookup t with
        | none =>
          rw [hl] at h
          simp only [Option.some.injEq, Prod.mk.injEq, Except.error.injEq] at h
          exact Or.inl h.1.symm
        | some f =>
          rw [hl] at h
          dsimp only at h
          cases hr : runFWith (resolveF fuel di) f
              { st with invocs := (Scope.singleton, t) :: st.invocs } with
          | none => rw [hr] at h; simp at h
          | some x =>
            obtain ⟨w, st1⟩ := x
            rw [hr] at h
            dsimp only at h
            by_cases hv : w.ty = t
            · rw [if_pos hv] at h
              simp at h
            · rw [if_neg hv] at h
              simp only [Option.some.injEq, Prod.mk.injEq, Except.error.injEq] at h
              exact Or.inr (Or.inl h.1.symm)

/-- C8: a wrongly-typed value is never silently returned — a successful
resolution always has the requested runtime type; when the cache or a factory
produces a wrong-typed value the entry point fails with the corresponding
mismatch message of the taxonomy; and under correct registration (every
factory produces the type it is keyed under, every cached instance is
correctly keyed) both wrong-type branches are unreachable: the only errors
are the `not registered` ones. -/
theorem c8_theorem (fuel : Nat) (di : SaDi) (sc : Scope) (t : Ty)
    (st st1 st' : RState) (v w : Value) (f : FProg) (e : String) :
    (resolveF fuel di sc t st = some (.ok v, st') → v.ty = t) ∧
    (st.cache.lookup t = some w → w.ty ≠ t →
      tryGetSingletonF (fuel + 1) di t st =
        some (.error ("Cached instance has wrong type for: " ++ typeName t), st) ∧
      "Cached instance has wrong type for: " ++ typeName t =
        (SaDiError.cached_type_mismatch (typeName t)).message) ∧
    (di.factories.lookup t = some f →
      runFWith (resolveF fuel di) f
        { st with invocs := (Scope.transient, t) :: st.invocs } = some (w, st1) →
      w.ty ≠ t →
      tryGetF (fuel + 1) di t st =
        some (.error ("Factory returned wrong type for: " ++ typeName t), st1) ∧
      "Factory returned wrong type for: " ++ typeName t =
        (SaDiError.type_mismatch (typeName t)).message) ∧
    (st.cache.lookup t = none → di.singletons.lookup t = some f →
      runFWith (resolveF fuel di) f
        { st with invocs := (Scope.singleton, t) :: st.invocs } = some (w, st1) →
      w.ty ≠ t →
      tryGetSingletonF (fuel + 1) di t st =
        some (.error ("Factory returned wrong type for: " ++ typeName t), st1)) ∧
    (di.wellTyped → st.cacheTyped →
      resolveF fuel di sc t st = some (.error e, st') →
      e = "No transient factory registered for type: " ++ typeName t ∨
      e = "No singleton factory registered for type: " ++ typeName t) := by
  refine ⟨fun h => resolveF_ok_ty fuel di sc t st v st' h,
    fun hhit hne => ⟨?_, rfl⟩,
    fun hreg hrun hne => ⟨?_, rfl⟩,
    fun hmiss hreg hrun hne => ?_,
    fun hwt hct h => (resolveF_wellTyped di hwt fuel sc t st (.error e) st' hct h).2.2 e rfl⟩
  · simp [tryGetSingletonF, resolveF, hhit, hne]
  · simp only [tryGetF, resolveF, hreg]
    rw [hrun]
    dsimp only
    rw [if_neg hne]
  · simp only [tryGetSingletonF, resolveF, hmiss, hreg]
    rw [hrun]
    dsimp only
    rw [if_neg hne]

/-- C8 witness: each clause at a concrete container. -/
theorem c8_witness :
    (Value.ty ⟨0, 0⟩ = 0) ∧
    (tryGetSingletonF 1 SaDi.new 0 ⟨[(0, ⟨5, 0⟩)], 1, []⟩ =
      some (.error ("Cached instance has wrong type for: " ++ typeName 0),
        ⟨[(0, ⟨5, 0⟩)], 1, []⟩) ∧
     "Cached instance has wrong type for: " ++ typeName 0 =
      (SaDiError.cached_type_mismatch (typeName 0)).message) ∧
    (tryGetF 1 ⟨[(0, .make 5)], []⟩ 0 RState.empty =
      some (.error ("Factory returned wrong type for: " ++ typeName 0),
        ⟨[], 1, [(.transient, 0)]⟩) ∧
     "Factory returned wrong type for: " ++ typeName 0 =
      (SaDiError.type_mismatch (typeName 0)).message) ∧
    (tryGetSingletonF 1 ⟨[], [(0, .make 5)]⟩ 0 RState.empty =
      some (.error ("Factory returned wrong type for: " ++ typeName 0),
        ⟨[], 1, [(.singleton, 0)]⟩)) ∧
    ("No transient factory registered for type: " ++ typeName 7 =
        "No transient factory registered for type: " ++ typeName 7 ∨
     "No transient factory registered for type: " ++ typeName 7 =
        "No singleton factory registered for type: " ++ typeName 7) :=
  ⟨(c8_theorem 1 ⟨[(0, .make 0)], []⟩ .transient 0 RState.empty RState.empty
      ⟨[], 1, [(.transient, 0)]⟩ ⟨0, 0⟩ ⟨0, 0⟩ (.make 0) "").1 rfl,
   (c8_theorem 0 SaDi.new .singleton 0 ⟨[(0, ⟨5, 0⟩)], 1, []⟩ RState.empty RState.empty
      ⟨5, 0⟩ ⟨5, 0⟩ (.make 0) "").2.1 rfl (by decide),
   (c8_theorem 0 ⟨[(0, .make 5)], []⟩ .transient 0 RState.empty
      ⟨[], 1, [(.transient, 0)]⟩ RState.empty ⟨5, 0⟩ ⟨5, 0⟩ (.make 5) "").2.2.1
      rfl rfl (by decide),
   (c8_theorem 0 ⟨[], [(0, .make 5)]⟩ .singleton 0 RState.empty
      ⟨[], 1, [(.singleton, 0)]⟩ RState.empty ⟨5, 0⟩ ⟨5, 0⟩ (.make 5) "").2.2.2.1
      rfl rfl rfl (by decide),
   (c8_theorem 1 SaDi.new .transient 7 RState.empty RState.empty RState.empty
      ⟨0, 0⟩ ⟨0, 0⟩ (.make 0)
      ("No transient factory registered for type: " ++ typeName 7)).2.2.2.2
      (by constructor <;> simp [SaDi.new])
      (by intro x hx; simp [RState.empty] at hx) rfl⟩

/-- C7 counterexample: the claim says every fallible public operation returns
an error carrying a variant of the `ErrorKind` taxonomy, but the resolution
entry points return bare message strings (`Result<T, String>` in the source):
resolving an unregistered identity yields a raw string error, which carries no
taxonomy variant. -/
theorem c7_counterexample :
    tryGetPub 1 SaDi.new 0 RState.empty =
      some (.error (.raw ("No transient factory registered for type: " ++ typeName 0)),
        RState.empty) ∧
    (ErrVal.raw ("No transient factory registered for type: " ++ typeName 0)).isTyped
      = false :=
  ⟨rfl, rfl⟩

/-- C7 (amended): the registration operations return structured `SaDiError`
values carrying the `FactoryAlreadyRegistered` variant, while the resolution
operations report failure as untyped `String` messages — whose text does match
the taxonomy's message formats (`not registered` / `wrong type`), but which
carry no `ErrorKind` value. -/
theorem c7_theorem (fuel : Nat) (di : SaDi) (t : Ty) (f : FProg)
    (st st' : RState) (ev : ErrVal) :
    (tryFactoryPub di t f = .error ev →
      ev = .typed (SaDiError.factory_already_registered (typeName t) "transient") ∧
      ev.isTyped = true) ∧
    (tryFactorySingletonPub di t f = .error ev →
      ev = .typed (SaDiError.factory_already_registered (typeName t) "singleton") ∧
      ev.isTyped = true) ∧
    (tryGetPub fuel di t st = some (.error ev, st') →
      ev.isTyped = false ∧
      (ev = .raw ("No transient factory registered for type: " ++ typeName t) ∨
       ev = .raw ("Factory returned wrong type for: " ++ typeName t))) ∧
    (tryGetSingletonPub fuel di t st = some (.error ev, st') →
      ev.isTyped = false ∧
      (ev = .raw ("No singleton factory registered for type: " ++ typeName t) ∨
       ev = .raw ("Factory returned wrong type for: " ++ typeName t) ∨
       ev = .raw ("Cached instance has wrong type for: " ++ typeName t))) := by
  refine ⟨fun h => ?_, fun h => ?_, fun h => ?_, fun h => ?_⟩
  · by_cases hs : (di.factories.lookup t).isSome
    · simp only [tryFactoryPub, SaDi.tryFactory, if_pos hs, Except.mapError,
        Except.error.injEq] at h
      exact ⟨h.symm, by rw [← h]; rfl⟩
    · simp [tryFactoryPub, SaDi.tryFactory, if_neg hs, Except.mapError] at h
  · by_cases hs : (di.singletons.lookup t).isSome
    · simp only [tryFactorySingletonPub, SaDi.tryFactorySingleton, if_pos hs,
        Except.mapError, Except.error.injEq] at h
      exact ⟨h.symm, by rw [← h]; rfl⟩
    · simp [tryFactorySingletonPub, SaDi.tryFactorySingleton, if_neg hs,
        Except.mapError] at h
  · simp only [tryGetPub] at h
    cases hr : tryGetF fuel di t st with
    | none => rw [hr] at h; simp at h
    | some x =>
      obtain ⟨r, st1⟩ := x
      rw [hr] at h
      cases r with
      | ok v => simp [Except.mapError] at h
      | error e =>
        simp only [Option.map_some', Except.mapError, Option.some.injEq,
          Prod.mk.injEq, Except.error.injEq] at h
        have henum := (resolveF_error_enum fuel di .transient t st e st1 hr).1 rfl
        refine ⟨by rw [← h.1]; rfl, ?_⟩
        rcases henum with he | he
        · exact Or.inl (by rw [← h.1, he])
        · exact Or.inr (by rw [← h.1, he])
  · simp only [tryGetSingletonPub] at h
    cases hr : tryGetSingletonF fuel di t st with
    | none => rw [hr] at h; simp at h
    | some x =>
      obtain ⟨r, st1⟩ := x
      rw [hr] at h
      cases r with
      | ok v => simp [Except.mapError] at h
      | error e =>
        simp only [Option.map_some', Except.mapError, Option.some.injEq,
          Prod.mk.injEq, Except.error.injEq] at h
        have henum := (resolveF_error_enum fuel di .singleton t st e st1 hr).2 rfl
        refine ⟨by rw [← h.1]; rfl, ?_⟩
        rcases henum with he | he | he
        · exact Or.inl (by rw [← h.1, he])
        · exact Or.inr (Or.inl (by rw [← h.1, he]))
        · exact Or.inr (Or.inr (by rw [← h.1, he]))

/-- C7 witness: the amended error forms at concrete containers. -/
theorem c7_witness :
    (ErrVal.typed (SaDiError.factory_already_registered (typeName 0) "transient") =
      .typed (SaDiError.factory_already_registered (typeName 0) "transient") ∧
     (ErrVal.typed (SaDiError.factory_already_registered (typeName 0) "transient")).isTyped
      = true) ∧
    ((ErrVal.raw ("No singleton factory registered for type: " ++ typeName 0)).isTyped
      = false ∧
     (ErrVal.raw ("No singleton factory registered for type: " ++ typeName 0) =
        .raw ("No singleton factory registered for type: " ++ typeName 0) ∨
      ErrVal.raw ("No singleton factory registered for type: " ++ typeName 0) =
        .raw ("Factory returned wrong type for: " ++ typeName 0) ∨
      ErrVal.raw ("No singleton factory registered for type: " ++ typeName 0) =
        .raw ("Cached instance has wrong type for: " ++ typeName 0))) :=
  ⟨(c7_theorem 1 ⟨[(0, .make 0)], []⟩ 0 (.make 1) RState.empty RState.empty
      (.typed (SaDiError.factory_already_registered (typeName 0) "transient"))).1 rfl,
   (c7_theorem 1 SaDi.new 0 (.make 1) RState.empty RState.empty
      (.raw ("No singleton factory registered for type: " ++ typeName 0))).2.2.2 rfl⟩
